import Mathlib

/-!
Verification of the orchestration core of the vips image-compression
CI action: path filtering, candidate resolution, threshold acceptance,
the external-compressor invocation contract, the pull-request report,
and the commit / pull-request reconciliation protocol.

Each definition is a shallow embedding of the corresponding TypeScript
function; remote API calls and local file-system effects are made
explicit as call traces and state passing.
-/

namespace VipsAction

/-! ## Path filter (`GitHubClient.#isImageFile`) -/

/-- Splits a character list at every occurrence of `sep`, keeping empty
segments, mirroring JavaScript `String.prototype.split` with a
single-character separator (`"".split(sep)` is `[""]`). -/
def splitOnChar (sep : Char) : List Char → List (List Char)
  | [] => [[]]
  | c :: cs =>
    match splitOnChar sep cs with
    | [] => [[]]
    | h :: t => if c = sep then [] :: h :: t else (c :: h) :: t

/-- Embeds `filePath.split('.').pop() ?? ''`: the last segment of the
split (JavaScript `pop` on the never-empty split result). -/
def lastSegment (sep : Char) (s : List Char) : List Char :=
  (splitOnChar sep s).getLastD []

/-- Embeds `GitHubClient.#isImageFile`: membership of the lowercased
last `.`-separated segment of the path in the configured file-ending
list. -/
def isImageFile (fileEndings : List String) (filePath : String) : Bool :=
  fileEndings.contains (String.mk ((lastSegment '.' filePath.data).map Char.toLower))

/-- Default configured file endings (`GitHubClient.#fileEndings`). -/
def defaultFileEndings : List String :=
  ["png", "jpeg", "jpg", "gif"]

/-- Characters strictly after the last occurrence of `sep`, or `none`
when `sep` does not occur.  This follows the specification's wording
"the substring of p after its final dot" and is compared against the
split-and-pop computation used by the source. -/
def suffixAfterLast (sep : Char) : List Char → Option (List Char)
  | [] => none
  | c :: cs =>
    match suffixAfterLast sep cs with
    | some s => some s
    | none => if c = sep then some cs else none

/-! ## Change records and candidate resolution
(`GitHubClient.#listCommitImageFiles`, `GitHubClient.#resolveImageFilePaths`) -/

/-- Entry of a commit's or pull request's changed-file list as consumed
by the client (only the fields the code reads). -/
structure ChangeRecord where
  status : String
  filename : String
deriving DecidableEq

/-- Image file record: repository-relative path and absolute local path. -/
structure ImageFile where
  repoPath : String
  localPath : String
deriving DecidableEq

/-- Embeds `GitHubClient.#resolveImageFilePaths`: keep image files and
map each to `{repoPath, localPath}`.  The local-path resolution
`resolve(join(this.#workspace, f))` is abstracted as the function
`loc`. -/
def resolveImageFilePaths (fileEndings : List String) (loc : String → String)
    (changes : List ChangeRecord) : List ImageFile :=
  ((changes.filter fun c => isImageFile fileEndings c.filename).map
    fun c => c.filename).map fun f => ImageFile.mk f (loc f)

/-- Status filter of `GitHubClient.#listCommitImageFiles`:
with `includeUnchanged` every status except `removed` survives,
otherwise only `added` and `changed`. -/
def statusFilter (includeUnchanged : Bool) (c : ChangeRecord) : Bool :=
  if includeUnchanged then c.status != "removed"
  else c.status == "added" || c.status == "changed"

/-- Embeds the pure part of `GitHubClient.#listCommitImageFiles`
applied to the changed-file list returned by the commit lookup. -/
def listCommitImageFiles (fileEndings : List String) (loc : String → String)
    (includeUnchanged : Bool) (files : List ChangeRecord) : List ImageFile :=
  resolveImageFilePaths fileEndings loc (files.filter (statusFilter includeUnchanged))

/-! ## Shell path quoting (`VIPS.#quotePath`) -/

/-- Per-character replacement of `path.replace(/'/g, "'\\''")`: a single
quote becomes the four characters quote, backslash, quote, quote; any
other character is untouched. -/
def escapeQuoteChar (c : Char) : List Char :=
  if c = '\'' then ['\'', '\\', '\'', '\''] else [c]

/-- Inner escaping step of `VIPS.#quotePath` (the global regex
replacement applied to the path). -/
def escapeQuotes (path : String) : String :=
  String.mk (path.data.flatMap escapeQuoteChar)

/-- Embeds `VIPS.#quotePath`: wraps the escaped path in single quotes. -/
def quotePath (path : String) : String :=
  "'" ++ escapeQuotes path ++ "'"

/-! ## Local file system model (`FS`, Node `path.extname`, tmp files) -/

/-- Content and permission mode of a file. -/
structure FileData where
  content : String
  mode : Nat
deriving DecidableEq

/-- File system modelled as an association list from absolute paths to
file data. -/
abbrev FileSystem := List (String × FileData)

/-- Reads a file: the first entry with the given path, if any. -/
def readFS (fs : FileSystem) (p : String) : Option FileData :=
  match fs.find? (fun e => e.1 == p) with
  | some e => some e.2
  | none => none

/-- Creates a new file entry. -/
def createFileFS (fs : FileSystem) (p : String) (d : FileData) : FileSystem :=
  (p, d) :: fs

/-- Overwrites the content of an existing file, keeping its mode;
paths of entries are never changed. -/
def writeContentFS (fs : FileSystem) (p : String) (content : String) : FileSystem :=
  fs.map fun e => if e.1 = p then (e.1, FileData.mk content e.2.mode) else e

/-- Basename of a path: the characters after the last `/`. -/
def basenameChars (p : List Char) : List Char :=
  (suffixAfterLast '/' p).getD p

/-- Embeds Node `path.extname` on ordinary file paths: the substring of
the basename from its final `.` (dot included); empty when the basename
has no dot or when its only dot is the leading character (dotfiles have
no extension). -/
def extname (p : String) : String :=
  match basenameChars p.data with
  | [] => ""
  | _ :: rest =>
    match suffixAfterLast '.' rest with
    | some s => String.mk ('.' :: s)
    | none => ""

/-- Longest path length among the entries of the file system. -/
def maxPathLen (fs : FileSystem) : Nat :=
  fs.foldr (fun e m => max e.1.length m) 0

/-- Modelled from the spec: the external `tmp` library (out-of-repo
collaborator of `FS.initializeEmptyTempFile`) picks the name of a file
that does not yet exist in the default tmp directory, ending in the
requested name suffix.  Modelled by a name longer than every existing
path, which makes freshness provable. -/
def freshTmpPath (fs : FileSystem) (sfx : String) : String :=
  "/tmp/tmp-" ++ String.mk (List.replicate (maxPathLen fs + 1) 'x') ++ sfx

/-- Embeds `FS.initializeEmptyTempFile`: creates an empty file with
owner-only mode `0o600` at a fresh path carrying the given suffix, and
returns that path. -/
def initializeEmptyTempFile (fs : FileSystem) (sfx : String) : String × FileSystem :=
  let p := freshTmpPath fs sfx
  (p, createFileFS fs p (FileData.mk "" 0o600))

/-! ## External compressor invocation (`VIPS.compress`) -/

/-- Compression options handed to the compressor
(`VIPSConfig` in `vips.ts`). -/
structure VIPSConfig where
  quality : Int
  stripMetadata : Bool
  pngCompressionLevel : Int
  jpegProgressive : Bool

/-- Termination of the spawned child process: normal exit with a code,
or the 10-second timeout after which Node kills the process. -/
inductive ProcTermination where
  | exited (code : Int)
  | timedOut
deriving DecidableEq

/-- Exit code observed by the `close` handler: the numeric code on
normal exit, and `none` (JavaScript `null`) when the process was killed
by the timeout signal. -/
def closeCode : ProcTermination → Option Int
  | .exited c => some c
  | .timedOut => none

/-- Failure of `VIPS.compress`: the synchronous `Unsupported format`
throw of `#vipsArgs`, or the promise rejection carrying the `close`
code (`reject(c)` for `c !== 0`, where `c` is `null` on timeout). -/
inductive CompressError where
  | unsupportedFormat (message : String)
  | procFailure (code : Option Int)
deriving DecidableEq

/-- Lowercases a string character by character (ASCII case folding, as
the paths at hand use). -/
def lowerStr (s : String) : String :=
  String.mk (s.data.map Char.toLower)

/-- Embeds `VIPS.#vipsArgs` composed with the placeholder substitution
of `compress`: `inArg` and `outArg` stand for the already-quoted input
and output paths substituted for the placeholders.  Unsupported
extensions are the thrown `Unsupported format` error. -/
def vipsArgs (extension : String) (config : VIPSConfig)
    (inArg outArg : String) : Except String String :=
  let normalizedExtension := lowerStr extension
  if normalizedExtension = ".png" then
    .ok (String.intercalate " "
      ["pngsave", inArg, outArg,
        "--compression=" ++ toString config.pngCompressionLevel,
        "--Q=" ++ toString config.quality,
        if config.stripMetadata then "--strip=1" else "",
        "--interlace=true", "--palette=true"])
  else if normalizedExtension = ".jpeg" ∨ normalizedExtension = ".jpg" then
    .ok (String.intercalate " "
      ["jpegsave", inArg, outArg,
        "--Q=" ++ toString config.quality,
        if config.jpegProgressive then "--interlace=1" else "",
        if config.stripMetadata then "--strip=1" else ""])
  else
    .error ("Unsupported format: " ++ normalizedExtension)

/-- Success test for an argument-building result. -/
def isOkStr : Except String String → Bool
  | .ok _ => true
  | .error _ => false

/-- Embeds `VIPS.compress`: derives the extension, creates the empty
temp output file, builds the vips arguments from the quoted paths, runs
the external compressor (abstracted as `vipsRun`, which writes only to
the output path), and resolves with the output path exactly when the
close code is `0`.  Returns the outcome together with the final file
system. -/
def compress (fs : FileSystem) (imagePath : String) (config : VIPSConfig)
    (vipsRun : String → String → String) (term : ProcTermination) :
    Except CompressError String × FileSystem :=
  let extension := extname imagePath
  let tmp := initializeEmptyTempFile fs extension
  let outFile := tmp.1
  let fs1 := tmp.2
  match vipsArgs extension config (quotePath imagePath) (quotePath outFile) with
  | .error e => (.error (.unsupportedFormat e), fs1)
  | .ok _args =>
    let inputContent :=
      match readFS fs imagePath with
      | some d => d.content
      | none => ""
    let fs2 := writeContentFS fs1 outFile (vipsRun inputContent outFile)
    (if closeCode term ≠ some 0 then .error (.procFailure (closeCode term))
     else .ok outFile, fs2)

/-! ## Threshold acceptance (`runAction` in `index.ts`) -/

/-- Per-file measurement taken in the `runAction` loop: the original
repo path, the compressed output path, and the two byte sizes. -/
structure MeasuredFile where
  repoPath : String
  compressedPath : String
  sizeBefore : Int
  sizeAfter : Int
deriving DecidableEq

/-- Accepted compression result (entry of `compressedImages`). -/
structure CompressionResult where
  repoPath : String
  localPath : String
  sizeBefore : Int
  sizeAfter : Int
deriving DecidableEq

/-- Embeds the two `continue` guards of the `runAction` loop: a file is
pushed unless `sizeBefore <= sizeAfter` or
`sizeBefore - sizeAfter < threshold`. -/
def acceptsResult (threshold sizeBefore sizeAfter : Int) : Bool :=
  if sizeBefore ≤ sizeAfter then false
  else if sizeBefore - sizeAfter < threshold then false
  else true

/-- Embeds the accumulation of `compressedImages` over the measured
files, in order; a discarded file is skipped and processing continues. -/
def collectAccepted (threshold : Int) (files : List MeasuredFile) :
    List CompressionResult :=
  files.filterMap fun m =>
    if acceptsResult threshold m.sizeBefore m.sizeAfter then
      some (CompressionResult.mk m.repoPath m.compressedPath m.sizeBefore m.sizeAfter)
    else none

/-! ## Pull-request report (`GitHubClient.#buildPRText`) -/

/-- Two-decimal fixed formatting of a nonnegative rational: round the
value times 100 to the nearest integer (half up) and print it with two
fractional digits. -/
def toFixed2Nonneg (q : ℚ) : String :=
  let n : Int := ⌊q * 100 + 1 / 2⌋
  toString (n / 100) ++ "." ++ (if n % 100 < 10 then "0" else "") ++ toString (n % 100)

/-- JavaScript `Number.prototype.toFixed(2)` on exact rationals: sign
followed by the two-decimal formatting of the absolute value. -/
def toFixed2 (q : ℚ) : String :=
  if q < 0 then "-" ++ toFixed2Nonneg (-q) else toFixed2Nonneg q

/-- Percentage cell of a report row as the source renders it:
`-` followed by `((100 * (sizeBefore - sizeAfter)) / sizeBefore).toFixed(2)`
followed by `%`. -/
def pctString (sizeBefore sizeAfter : ℚ) : String :=
  "-" ++ toFixed2 ((100 * (sizeBefore - sizeAfter)) / sizeBefore) ++ "%"

/-- Percentage cell as the specification words it:
`-((sizeBefore - sizeAfter) / sizeBefore) * 100` formatted to two
decimals, followed by `%`. -/
def specPct (sizeBefore sizeAfter : ℚ) : String :=
  toFixed2 (-(((sizeBefore - sizeAfter) / sizeBefore) * 100)) ++ "%"

/-- One table row of the report body built by `#buildPRText`. -/
def prRow (d : CompressionResult) : String :=
  "| `" ++ d.repoPath ++ "` | `" ++ toString d.sizeBefore ++ "` | `" ++
    toString d.sizeAfter ++ "` | `" ++ pctString (d.sizeBefore : ℚ) (d.sizeAfter : ℚ) ++ "`"

/-- Embeds `GitHubClient.#buildPRText`: header lines and one row per
accepted result, joined by newlines. -/
def buildPRText (imageData : List CompressionResult) : String :=
  String.intercalate "\n"
    (["Compressed Images:",
      "| Path | Previous Size (KB) | New Size (KB) | Diff |",
      "| --- | --- | --- | --- |"] ++ imageData.map prRow)

/-! ## Remote host interaction (`GitHubClient.createCommit`,
`GitHubClient.upsertPullRequest`, the tail of `runAction`) -/

/-- Tree entry pushed to `git.createTree` for each accepted image. -/
structure TreeEntry where
  path : String
  type : String
  mode : String
  sha : String
deriving DecidableEq

/-- Remote API requests issued by the client, with the payload fields
relevant to the reconciliation protocol.  `createPull` records the
stray `pull_number` field the source includes in the creation payload. -/
inductive RemoteCall where
  | createBlob (content : String)
  | createTree (baseTree : String) (entries : List TreeEntry)
  | createCommitReq (tree : String) (parents : List String) (message : String)
  | listMatchingRefs (ref : String)
  | updateRef (ref : String) (sha : String) (force : Bool)
  | createRef (ref : String) (sha : String) (force : Bool)
  | getRepo
  | listPulls (base : String) (headBranch : String)
  | updatePull (number : Nat) (body : String) (title : String)
  | createPull (pullNumber : Nat) (base : String) (headBranch : String)
      (body : String) (title : String)
deriving DecidableEq

/-- Remote write calls (everything except pure reads). -/
def RemoteCall.isWrite : RemoteCall → Bool
  | .createBlob _ => true
  | .createTree _ _ => true
  | .createCommitReq _ _ _ => true
  | .updateRef _ _ _ => true
  | .createRef _ _ _ => true
  | .updatePull _ _ _ => true
  | .createPull _ _ _ _ _ => true
  | _ => false

/-- Blob-creation calls. -/
def RemoteCall.isBlobCreate : RemoteCall → Bool
  | .createBlob _ => true
  | _ => false

/-- Ref-creation calls. -/
def RemoteCall.isCreateRef : RemoteCall → Bool
  | .createRef _ _ _ => true
  | _ => false

/-- Ref-update calls. -/
def RemoteCall.isUpdateRef : RemoteCall → Bool
  | .updateRef _ _ _ => true
  | _ => false

/-- Pull-request-creation calls. -/
def RemoteCall.isCreatePull : RemoteCall → Bool
  | .createPull _ _ _ _ _ => true
  | _ => false

/-- Open pull request as returned by `pulls.list` (the fields the
matching predicate reads). -/
structure PullRequest where
  number : Nat
  headOwnerLogin : String
  headRepoName : String
  headRef : String
deriving DecidableEq

/-- Responses of the remote host and of local file reads, supplied as
an oracle: blob/tree/commit shas returned by the creation calls, the
refs returned by `listMatchingRefs`, the repository's default branch,
and the open pull requests returned by `pulls.list`. -/
structure RemoteEnv where
  readFileB64 : String → String
  blobSha : String → String
  treeSha : String
  commitSha : String
  matchingRefs : List String
  defaultBranch : String
  openPRs : List PullRequest

/-- Structural narrowing used when `runAction` passes the accepted
results to `createCommit`. -/
def toImageFile (r : CompressionResult) : ImageFile :=
  ImageFile.mk r.repoPath r.localPath

/-- Embeds `GitHubClient.createCommit` as the trace of remote calls it
issues: one blob per image, one tree on the base tree of the triggering
commit, one commit with the triggering commit as single parent, the
`listMatchingRefs` lookup, and the force-update (of `heads/<branch>`)
or creation (of `refs/heads/<branch>`) of the branch ref. -/
def createCommit (env : RemoteEnv) (branch ctxSha commitMessage : String)
    (images : List ImageFile) : List RemoteCall :=
  let head := "heads/" ++ branch
  let ref := "refs/" ++ head
  let imageBlobs := images.map fun i =>
    TreeEntry.mk i.repoPath "blob" "100644" (env.blobSha (env.readFileB64 i.localPath))
  let refExists := env.matchingRefs.contains ref
  (images.map fun i => RemoteCall.createBlob (env.readFileB64 i.localPath)) ++
    [RemoteCall.createTree ctxSha imageBlobs,
      RemoteCall.createCommitReq env.treeSha [ctxSha] commitMessage,
      RemoteCall.listMatchingRefs head,
      if refExists then RemoteCall.updateRef head env.commitSha true
      else RemoteCall.createRef ref env.commitSha true]

/-- Embeds `GitHubClient.upsertPullRequest`: reads the default branch
and the open pull requests, then updates the matching pull request, or
creates one.  In the creation branch the source dereferences
`existingPRs.data[0].number` before calling `pulls.create`, which
throws a `TypeError` when the list is empty; the thrown error is the
`Except.error` outcome.  Returns the call trace together with the
outcome. -/
def upsertPullRequest (env : RemoteEnv) (owner repo branch : String)
    (imageData : List CompressionResult) : List RemoteCall × Except String Unit :=
  let prText := buildPRText imageData
  let reads := [RemoteCall.getRepo, RemoteCall.listPulls env.defaultBranch branch]
  match env.openPRs.find? (fun d =>
      d.headOwnerLogin == owner && d.headRepoName == repo && d.headRef == branch) with
  | some matchingPR =>
    (reads ++ [RemoteCall.updatePull matchingPR.number prText "Compress Images"], .ok ())
  | none =>
    match env.openPRs with
    | [] => (reads, .error "TypeError: cannot read number of undefined")
    | firstPR :: _ =>
      (reads ++ [RemoteCall.createPull firstPR.number env.defaultBranch branch
        prText "Compress Images"], .ok ())

/-- Embeds the reconciliation tail of `runAction`:
`createCommit(compressedImages)` followed by
`upsertPullRequest(compressedImages)`, both called unconditionally,
as the combined trace of issued remote calls. -/
def reconcile (env : RemoteEnv) (owner repo branch ctxSha commitMessage : String)
    (results : List CompressionResult) : List RemoteCall :=
  createCommit env branch ctxSha commitMessage (results.map toImageFile) ++
    (upsertPullRequest env owner repo branch results).1

/-- Concrete remote environment of a repository with no open pull
requests and no existing branch ref, used for concrete evaluations. -/
def sampleEnv : RemoteEnv where
  readFileB64 := fun _ => "QUJD"
  blobSha := fun _ => "blobsha"
  treeSha := "treesha"
  commitSha := "commitsha"
  matchingRefs := []
  defaultBranch := "main"
  openPRs := []

/-! ## Helper lemmas -/

theorem splitOnChar_ne_nil (sep : Char) (s : List Char) :
    splitOnChar sep s ≠ [] := by
  cases s with
  | nil => simp [splitOnChar]
  | cons c cs =>
    simp only [splitOnChar]
    cases h : splitOnChar sep cs with
    | nil => simp
    | cons h' t' =>
      by_cases hc : c = sep <;> simp [hc]

theorem splitOnChar_of_not_mem (sep : Char) (s : List Char) (h : sep ∉ s) :
    splitOnChar sep s = [s] := by
  induction s with
  | nil => rfl
  | cons c cs ih =>
    have hc : c ≠ sep := fun hcc => h (hcc ▸ List.mem_cons_self c cs)
    have hcs : sep ∉ cs := fun hm => h (List.mem_cons_of_mem c hm)
    simp only [splitOnChar, ih hcs]
    simp [hc]

theorem suffixAfterLast_eq_none_iff (sep : Char) (s : List Char) :
    suffixAfterLast sep s = none ↔ sep ∉ s := by
  induction s with
  | nil => simp [suffixAfterLast]
  | cons c cs ih =>
    simp only [suffixAfterLast]
    cases h : suffixAfterLast sep cs with
    | some s' =>
      have : sep ∈ cs := by
        by_contra hmem
        rw [ih.2 hmem] at h
        exact Option.noConfusion h
      simp [List.mem_cons, this]
    | none =>
      have hmem : sep ∉ cs := ih.1 h
      by_cases hc : c = sep
      · simp [hc]
      · have hsc : ¬sep = c := fun h2 => hc h2.symm
        simp [List.mem_cons, hmem, hsc, hc]

theorem two_le_length_splitOnChar (sep : Char) (s : List Char) (h : sep ∈ s) :
    2 ≤ (splitOnChar sep s).length := by
  induction s with
  | nil => cases h
  | cons c cs ih =>
    simp only [splitOnChar]
    cases hs : splitOnChar sep cs with
    | nil => exact absurd hs (splitOnChar_ne_nil sep cs)
    | cons h' t' =>
      by_cases hc : c = sep
      · simp [hc]
      · have hmem : sep ∈ cs := by
          cases List.mem_cons.1 h with
          | inl heq => exact absurd heq.symm hc
          | inr hm => exact hm
        have := ih hmem
        rw [hs] at this
        simpa [hc] using this

theorem getLastD_of_ne_nil {α : Type} : ∀ (l : List α), l ≠ [] → ∀ d e : α,
    l.getLastD d = l.getLastD e
  | [], h, _, _ => absurd rfl h
  | _ :: _, _, _, _ => by rw [List.getLastD_cons, List.getLastD_cons]

/-- Relates the split-and-pop computation of the source to the
specification's "substring after the final separator" description. -/
theorem lastSegment_eq (sep : Char) (s : List Char) :
    lastSegment sep s = (suffixAfterLast sep s).getD s := by
  induction s with
  | nil => rfl
  | cons c cs ih =>
    unfold lastSegment at ih ⊢
    cases hs : splitOnChar sep cs with
    | nil => exact absurd hs (splitOnChar_ne_nil sep cs)
    | cons h' t' =>
      have hsplit : splitOnChar sep (c :: cs) =
          if c = sep then [] :: h' :: t' else (c :: h') :: t' := by
        simp only [splitOnChar, hs]
      rw [hsplit]
      rw [hs] at ih
      by_cases hc : c = sep
      · -- a separator here: the last segment is the last segment of the tail
        rw [if_pos hc, List.getLastD_cons]
        simp only [suffixAfterLast, hc, if_pos rfl]
        cases hsuf : suffixAfterLast sep cs with
        | some s' =>
          rw [hsuf] at ih
          simpa using ih
        | none =>
          rw [hsuf] at ih
          simpa using ih
      · rw [if_neg hc]
        simp only [suffixAfterLast]
        cases hsuf : suffixAfterLast sep cs with
        | some s' =>
          -- the tail contains a separator, so the split has ≥ 2 parts
          have hmem : sep ∈ cs := by
            by_contra hnm
            rw [(suffixAfterLast_eq_none_iff sep cs).2 hnm] at hsuf
            exact Option.noConfusion hsuf
          have hlen : 2 ≤ (splitOnChar sep cs).length := two_le_length_splitOnChar sep cs hmem
          rw [hs] at hlen
          have ht' : t' ≠ [] := by
            cases t' with
            | nil => simp at hlen
            | cons x xs => simp
          rw [hsuf] at ih
          simp only [Option.getD_some] at ih ⊢
          calc ((c :: h') :: t').getLastD [] = t'.getLastD (c :: h') := by
                rw [List.getLastD_cons]
            _ = t'.getLastD h' := getLastD_of_ne_nil t' ht' _ _
            _ = (h' :: t').getLastD [] := by rw [List.getLastD_cons]
            _ = s' := ih
        | none =>
          -- no separator in the tail: the split of the tail is a single segment
          have hnm : sep ∉ cs := (suffixAfterLast_eq_none_iff sep cs).1 hsuf
          have hsingle : splitOnChar sep cs = [cs] := splitOnChar_of_not_mem sep cs hnm
          rw [hs] at hsingle
          have hh : h' = cs := (List.cons.injEq _ _ _ _ ▸ hsingle).1
          have ht : t' = [] := (List.cons.injEq _ _ _ _ ▸ hsingle).2
          subst hh ht
          simp [hc, List.getLastD_cons]

/-! ## C2: extension-based image classification -/

/-- C2, counterexample.  The claim states that a path containing no `.`
is never classified as an image; but `"png"` contains no dot and
`#isImageFile` classifies it as an image, because JavaScript
`"png".split('.').pop()` is the whole string `"png"`. -/
theorem isImageFile_no_dot_cex :
    ("png".data.contains '.') = false ∧
      isImageFile defaultFileEndings "png" = true := by
  constructor
  · decide
  · decide

/-- C2 (amended).  `isImageFile` returns true iff the lowercased
substring after the final `.` — or, when the path contains no `.`, the
lowercased path itself — is a member of the configured extension list;
in particular a dot-free path is not always rejected. -/
theorem isImageFile_characterization (fileEndings : List String) (p : String) :
    (isImageFile fileEndings p =
      fileEndings.contains
        (String.mk (((suffixAfterLast '.' p.data).getD p.data).map Char.toLower))) ∧
    (suffixAfterLast '.' p.data = none →
      isImageFile fileEndings p =
        fileEndings.contains (String.mk (p.data.map Char.toLower))) := by
  constructor
  · unfold isImageFile
    rw [lastSegment_eq]
  · intro h
    unfold isImageFile
    rw [lastSegment_eq, h, Option.getD_none]

/-- C2, witness: the characterization evaluated on the dot-free path
`"png"` with the default ending list. -/
theorem isImageFile_characterization_witness :
    isImageFile defaultFileEndings "png" =
      defaultFileEndings.contains (String.mk ("png".data.map Char.toLower)) :=
  (isImageFile_characterization defaultFileEndings "png").2 (by decide)

/-! ## C9: shell path quoting -/

theorem flatMap_escapeQuoteChar_of_no_quote :
    ∀ (l : List Char), (∀ c ∈ l, c ≠ '\'') → l.flatMap escapeQuoteChar = l := by
  intro l
  induction l with
  | nil => intro _; rfl
  | cons c cs ih =>
    intro h
    have hc : c ≠ '\'' := h c (List.mem_cons_self c cs)
    have hcs : ∀ x ∈ cs, x ≠ '\'' := fun x hx => h x (List.mem_cons_of_mem c hx)
    simp [List.flatMap_cons, escapeQuoteChar, hc, ih hcs]

/-- C9.  `quotePath` wraps its argument in single quotes and performs,
inside the quotes, exactly the replacement of every single quote by the
four-character sequence quote/backslash/quote/quote: the inner escaping
is a homomorphism on concatenation, leaves every non-quote character
unchanged, maps the quote character to exactly that sequence, and a
quote-free path is wrapped verbatim. -/
theorem quotePath_escaping_spec :
    (∀ s : String, (∀ c ∈ s.data, c ≠ '\'') → quotePath s = "'" ++ s ++ "'") ∧
    (∀ s t : String, escapeQuotes (s ++ t) = escapeQuotes s ++ escapeQuotes t) ∧
    (∀ s : String, quotePath s = "'" ++ escapeQuotes s ++ "'") ∧
    (escapeQuotes (String.mk ['\'']) = String.mk ['\'', '\\', '\'', '\'']) ∧
    (∀ c : Char, c ≠ '\'' → escapeQuotes (String.mk [c]) = String.mk [c]) ∧
    quotePath "a'b" = "'a'\\''b'" := by
  refine ⟨?_, ?_, ?_, ?_, ?_, ?_⟩
  · intro s h
    unfold quotePath escapeQuotes
    rw [flatMap_escapeQuoteChar_of_no_quote s.data h]
  · intro s t
    unfold escapeQuotes
    cases s with
    | mk sd =>
      cases t with
      | mk td =>
        show String.mk ((sd ++ td).flatMap escapeQuoteChar) = _
        rw [List.flatMap_append]
        rfl
  · intro s
    rfl
  · decide
  · intro c hc
    unfold escapeQuotes
    simp [List.flatMap_cons, escapeQuoteChar, hc]
  · decide

/-- C9, witness: a quote-free path is wrapped verbatim. -/
theorem quotePath_escaping_spec_witness :
    quotePath "ab" = "'" ++ "ab" ++ "'" :=
  quotePath_escaping_spec.1 "ab" (by decide)

/-! ## C5: size-reduction threshold acceptance -/

/-- C5.  A measured file is accepted into the publish set iff
`sizeAfter < sizeBefore` and `sizeBefore - sizeAfter ≥ threshold`; in
particular (1000, 900) is accepted at threshold 50, (1000, 980) is
discarded at threshold 50, any case with `sizeAfter ≥ sizeBefore` is
discarded regardless of the threshold, and a discarded file merely
drops out of the accumulated list while processing continues with the
remaining files. -/
theorem threshold_acceptance_spec :
    (acceptsResult 50 1000 900 = true) ∧
    (acceptsResult 50 1000 980 = false) ∧
    (∀ t b a : Int, b ≤ a → acceptsResult t b a = false) ∧
    (∀ t b a : Int, acceptsResult t b a = true ↔ a < b ∧ t ≤ b - a) ∧
    (∀ (t : Int) (m : MeasuredFile) (rest : List MeasuredFile),
      collectAccepted t (m :: rest) =
        (if acceptsResult t m.sizeBefore m.sizeAfter then
          [CompressionResult.mk m.repoPath m.compressedPath m.sizeBefore m.sizeAfter]
        else []) ++ collectAccepted t rest) := by
  refine ⟨by decide, by decide, ?_, ?_, ?_⟩
  · intro t b a h
    simp [acceptsResult, h]
  · intro t b a
    unfold acceptsResult
    split_ifs with h1 h2 <;> simp <;> omega
  · intro t m rest
    by_cases h : acceptsResult t m.sizeBefore m.sizeAfter <;>
      simp [collectAccepted, List.filterMap_cons, h]

/-- C5, witness: a file whose size grew is discarded regardless of the
threshold. -/
theorem threshold_acceptance_spec_witness :
    acceptsResult 0 500 700 = false :=
  threshold_acceptance_spec.2.2.1 0 500 700 (by decide)

/-! ## C4: timeout failures are distinguishable typed failures -/

/-- C4.  When the argument builder succeeds (a supported extension), a
timed-out compressor run fails with the typed error carrying the
timeout marker (`none`, the `null` close code of the killed process), a
non-zero exit code `k` fails with the typed error carrying `some k`,
the two failures are distinguishable for every `k`, and in every
non-zero-close-code case no output file is returned as a valid
result. -/
theorem compress_timeout_distinct_failure (fs : FileSystem) (imagePath : String)
    (config : VIPSConfig) (vipsRun : String → String → String)
    (hok : isOkStr (vipsArgs (extname imagePath) config (quotePath imagePath)
      (quotePath (freshTmpPath fs (extname imagePath)))) = true) :
    ((compress fs imagePath config vipsRun .timedOut).1 =
      Except.error (CompressError.procFailure none)) ∧
    (∀ k : Int, k ≠ 0 → (compress fs imagePath config vipsRun (.exited k)).1 =
      Except.error (CompressError.procFailure (some k))) ∧
    (∀ k : Int, (compress fs imagePath config vipsRun .timedOut).1 ≠
      (compress fs imagePath config vipsRun (.exited k)).1) ∧
    (∀ term : ProcTermination, closeCode term ≠ some 0 →
      ∀ out : String, (compress fs imagePath config vipsRun term).1 ≠ Except.ok out) := by
  cases hargs : vipsArgs (extname imagePath) config (quotePath imagePath)
      (quotePath (freshTmpPath fs (extname imagePath))) with
  | error msg => rw [hargs] at hok; exact absurd hok (by simp [isOkStr])
  | ok args =>
    have hred : ∀ term : ProcTermination,
        (compress fs imagePath config vipsRun term).1 =
          if closeCode term ≠ some 0 then
            Except.error (CompressError.procFailure (closeCode term))
          else Except.ok (freshTmpPath fs (extname imagePath)) := by
      intro term
      simp only [compress, initializeEmptyTempFile, hargs]
    refine ⟨?_, ?_, ?_, ?_⟩
    · rw [hred]
      simp [closeCode]
    · intro k hk
      rw [hred]
      simp [closeCode, hk]
    · intro k
      rw [hred, hred]
      by_cases hk : k = 0 <;> simp [closeCode, hk]
    · intro term hterm out
      rw [hred, if_pos hterm]
      simp

/-- C4, witness: on a `.png` input in a file system with one file the
argument builder succeeds, and the timeout failure is distinguishable
from the exit-code-1 failure. -/
theorem compress_timeout_distinct_failure_witness :
    (compress [("img.png", FileData.mk "DATA" 420)] "img.png"
        (VIPSConfig.mk 80 true 9 true) (fun _ _ => "OUT") .timedOut).1 ≠
      (compress [("img.png", FileData.mk "DATA" 420)] "img.png"
        (VIPSConfig.mk 80 true 9 true) (fun _ _ => "OUT") (.exited 1)).1 :=
  (compress_timeout_distinct_failure [("img.png", FileData.mk "DATA" 420)] "img.png"
    (VIPSConfig.mk 80 true 9 true) (fun _ _ => "OUT") (by decide)).2.2.1 1

/-! ## C7: candidate resolution and change statuses -/

/-- C7.  Every entry returned by candidate resolution originates from a
change record that passed the status filter of the requested scope —
with `includeUnchanged` (the `AllFiles` scope) the status was not
`removed`, without it (the `ChangedOnly` scope) the status was `added`
or `changed` — that is classified as an image file, and the entry is
exactly `{repoPath := filename, localPath := loc filename}` for the
abstracted local-path resolution `loc`. -/
theorem resolveCandidates_status_spec (fileEndings : List String)
    (loc : String → String) (includeUnchanged : Bool)
    (files : List ChangeRecord) (entry : ImageFile)
    (h : entry ∈ listCommitImageFiles fileEndings loc includeUnchanged files) :
    ∃ c ∈ files,
      entry = ImageFile.mk c.filename (loc c.filename) ∧
      isImageFile fileEndings c.filename = true ∧
      (includeUnchanged = true → c.status ≠ "removed") ∧
      (includeUnchanged = false → c.status = "added" ∨ c.status = "changed") := by
  unfold listCommitImageFiles resolveImageFilePaths at h
  simp only [List.mem_map, List.mem_filter] at h
  obtain ⟨f, ⟨c, ⟨⟨hcmem, hst⟩, him⟩, hcf⟩, hentry⟩ := h
  subst hcf
  subst hentry
  refine ⟨c, hcmem, rfl, him, ?_, ?_⟩
  · intro hinc
    subst hinc
    simpa [statusFilter] using hst
  · intro hinc
    subst hinc
    simpa [statusFilter] using hst

/-- C7, witness: the characterization applied to a concrete added image
file in `ChangedOnly` scope. -/
theorem resolveCandidates_status_spec_witness :
    ∃ c ∈ [ChangeRecord.mk "added" "a.png"],
      ImageFile.mk "a.png" "/ws/a.png" = ImageFile.mk c.filename ("/ws/" ++ c.filename) ∧
      isImageFile defaultFileEndings c.filename = true ∧
      (false = true → c.status ≠ "removed") ∧
      (false = false → c.status = "added" ∨ c.status = "changed") :=
  resolveCandidates_status_spec defaultFileEndings (fun f => "/ws/" ++ f) false
    [ChangeRecord.mk "added" "a.png"] (ImageFile.mk "a.png" "/ws/a.png") (by decide)

/-! ## C8: pull-request report percentage -/

/-- C8.  For every accepted result (positive original size, strictly
smaller compressed size) the rendered percentage cell equals
`-((sizeBefore - sizeAfter) / sizeBefore) * 100` formatted to two
decimals; in particular the row for sizes 1000 → 900 renders the
percentage `-10.00%`. -/
theorem prReport_percentage_spec :
    (∀ b a : ℚ, 0 < b → a < b → pctString b a = specPct b a) ∧
    prRow (CompressionResult.mk "img.png" "/tmp/out.png" 1000 900) =
      "| `img.png` | `1000` | `900` | `-10.00%`" := by
  constructor
  · intro b a hb hab
    have h1 : 0 < b - a := sub_pos.2 hab
    have h2 : 0 < (b - a) / b := div_pos h1 hb
    have hx : 0 < (b - a) / b * 100 := mul_pos h2 (by norm_num)
    have heq : (100 * (b - a)) / b = (b - a) / b * 100 := by ring
    simp only [pctString, specPct, toFixed2, heq]
    rw [if_neg (not_lt.2 hx.le), if_pos (neg_lt_zero.2 hx), neg_neg]
  · have hpct : pctString ((1000 : ℤ) : ℚ) ((900 : ℤ) : ℚ) = "-10.00%" := by
      unfold pctString
      have hv : (100 * (((1000 : ℤ) : ℚ) - ((900 : ℤ) : ℚ))) / ((1000 : ℤ) : ℚ) = 10 := by
        push_cast
        norm_num
      rw [hv]
      unfold toFixed2
      rw [if_neg (by norm_num)]
      simp only [toFixed2Nonneg]
      have hn : (⌊(10 : ℚ) * 100 + 1 / 2⌋ : ℤ) = 1000 := by norm_num
      rw [hn]
      decide
    unfold prRow
    rw [hpct]
    decide

/-- C8, witness: the percentage formula coincides with the
specification's formula at the sizes 1000 and 900. -/
theorem prReport_percentage_spec_witness :
    pctString 1000 900 = specPct 1000 900 :=
  prReport_percentage_spec.1 1000 900 (by norm_num) (by norm_num)

/-! ## C10: compression never writes to the input file -/

theorem string_length_append (a b : String) :
    (a ++ b).length = a.length + b.length := by
  cases a with
  | mk ad =>
    cases b with
    | mk bd =>
      show (ad ++ bd).length = ad.length + bd.length
      exact List.length_append ad bd

theorem mem_length_le_maxPathLen (fs : FileSystem) (p : String)
    (hp : p ∈ fs.map Prod.fst) : p.length ≤ maxPathLen fs := by
  induction fs with
  | nil => simp at hp
  | cons e es ih =>
    simp only [List.map_cons, List.mem_cons] at hp
    simp only [maxPathLen, List.foldr_cons]
    cases hp with
    | inl h => subst h; exact le_max_left _ _
    | inr h =>
      exact le_trans (by simpa [maxPathLen] using ih h) (le_max_right _ _)

theorem freshTmpPath_length (fs : FileSystem) (sfx : String) :
    (freshTmpPath fs sfx).length = 9 + (maxPathLen fs + 1) + sfx.length := by
  unfold freshTmpPath
  rw [string_length_append, string_length_append]
  have h1 : ("/tmp/tmp-" : String).length = 9 := rfl
  have h2 : (String.mk (List.replicate (maxPathLen fs + 1) 'x')).length
      = maxPathLen fs + 1 := by
    show (List.replicate (maxPathLen fs + 1) 'x').length = _
    exact List.length_replicate _ _
  rw [h1, h2]

theorem freshTmpPath_not_mem (fs : FileSystem) (sfx : String) :
    freshTmpPath fs sfx ∉ fs.map Prod.fst := by
  intro hmem
  have h1 := mem_length_le_maxPathLen fs _ hmem
  rw [freshTmpPath_length] at h1
  omega

theorem readFS_cons (q : String) (d : FileData) (fs : FileSystem) (p : String) :
    readFS ((q, d) :: fs) p = if q = p then some d else readFS fs p := by
  by_cases hq : q = p
  · simp [readFS, List.find?_cons, hq]
  · simp [readFS, List.find?_cons, hq]

theorem readFS_writeContentFS_ne (fs : FileSystem) (q content p : String)
    (h : p ≠ q) : readFS (writeContentFS fs q content) p = readFS fs p := by
  induction fs with
  | nil => rfl
  | cons e es ih =>
    obtain ⟨pk, pd⟩ := e
    by_cases he : pk = q
    · subst he
      simp only [writeContentFS, List.map_cons, if_pos rfl]
      rw [readFS_cons, readFS_cons,
        if_neg (fun hqp => h hqp.symm), if_neg (fun hqp => h hqp.symm)]
      simpa [writeContentFS] using ih
    · simp only [writeContentFS, List.map_cons, if_neg he]
      rw [readFS_cons, readFS_cons]
      by_cases hp : pk = p
      · simp [hp]
      · simp only [if_neg hp]
        simpa [writeContentFS] using ih

/-- C10.  The compressor's output path is a freshly created temporary
file: it differs from the input path, carries the input's extension as
its suffix, is created empty with owner-only mode `0o600`, the input
file's entry is unchanged by the whole compression run, and whenever
`compress` succeeds it returns exactly that temporary path. -/
theorem compress_preserves_input_spec (fs : FileSystem) (imagePath : String)
    (config : VIPSConfig) (vipsRun : String → String → String)
    (term : ProcTermination) (h : imagePath ∈ fs.map Prod.fst) :
    freshTmpPath fs (extname imagePath) ≠ imagePath ∧
    (∃ pre, freshTmpPath fs (extname imagePath) = pre ++ extname imagePath) ∧
    readFS (initializeEmptyTempFile fs (extname imagePath)).2
      (freshTmpPath fs (extname imagePath)) = some (FileData.mk "" 0o600) ∧
    readFS (compress fs imagePath config vipsRun term).2 imagePath =
      readFS fs imagePath ∧
    (∀ out, (compress fs imagePath config vipsRun term).1 = Except.ok out →
      out = freshTmpPath fs (extname imagePath)) := by
  have hfresh : freshTmpPath fs (extname imagePath) ∉ fs.map Prod.fst :=
    freshTmpPath_not_mem fs (extname imagePath)
  have hne : freshTmpPath fs (extname imagePath) ≠ imagePath :=
    fun heq => hfresh (by rw [heq]; exact h)
  refine ⟨hne,
    ⟨"/tmp/tmp-" ++ String.mk (List.replicate (maxPathLen fs + 1) 'x'), rfl⟩,
    ?_, ?_, ?_⟩
  · show readFS (createFileFS fs (freshTmpPath fs (extname imagePath))
      (FileData.mk "" 0o600)) (freshTmpPath fs (extname imagePath)) = _
    unfold createFileFS
    rw [readFS_cons, if_pos rfl]
  · cases hargs : vipsArgs (extname imagePath) config (quotePath imagePath)
        (quotePath (freshTmpPath fs (extname imagePath))) with
    | error msg =>
      have hstate : (compress fs imagePath config vipsRun term).2 =
          createFileFS fs (freshTmpPath fs (extname imagePath)) (FileData.mk "" 0o600) := by
        simp only [compress, initializeEmptyTempFile, hargs]
      rw [hstate]
      unfold createFileFS
      rw [readFS_cons, if_neg hne]
    | ok args =>
      have hstate : (compress fs imagePath config vipsRun term).2 =
          writeContentFS
            (createFileFS fs (freshTmpPath fs (extname imagePath)) (FileData.mk "" 0o600))
            (freshTmpPath fs (extname imagePath))
            (vipsRun
              (match readFS fs imagePath with | some d => d.content | none => "")
              (freshTmpPath fs (extname imagePath))) := by
        simp only [compress, initializeEmptyTempFile, hargs]
      rw [hstate, readFS_writeContentFS_ne _ _ _ _ (fun he => hne he.symm)]
      unfold createFileFS
      rw [readFS_cons, if_neg hne]
  · intro out hout
    cases hargs : vipsArgs (extname imagePath) config (quotePath imagePath)
        (quotePath (freshTmpPath fs (extname imagePath))) with
    | error msg =>
      simp only [compress, initializeEmptyTempFile, hargs] at hout
      exact absurd hout (by simp)
    | ok args =>
      simp only [compress, initializeEmptyTempFile, hargs] at hout
      by_cases ht : closeCode term ≠ some 0
      · rw [if_pos ht] at hout
        exact absurd hout (by simp)
      · rw [if_neg ht] at hout
        injection hout with hout'
        exact hout'.symm

/-- C10, witness: the property evaluated on a one-file file system and
a successfully exiting compressor run. -/
theorem compress_preserves_input_spec_witness :
    freshTmpPath [("img.png", FileData.mk "DATA" 420)] (extname "img.png") ≠ "img.png" ∧
    (∃ pre, freshTmpPath [("img.png", FileData.mk "DATA" 420)] (extname "img.png") =
      pre ++ extname "img.png") ∧
    readFS (initializeEmptyTempFile [("img.png", FileData.mk "DATA" 420)]
        (extname "img.png")).2
      (freshTmpPath [("img.png", FileData.mk "DATA" 420)] (extname "img.png")) =
      some (FileData.mk "" 0o600) ∧
    readFS (compress [("img.png", FileData.mk "DATA" 420)] "img.png"
        (VIPSConfig.mk 80 true 9 true) (fun _ _ => "OUT") (.exited 0)).2 "img.png" =
      readFS [("img.png", FileData.mk "DATA" 420)] "img.png" ∧
    (∀ out, (compress [("img.png", FileData.mk "DATA" 420)] "img.png"
        (VIPSConfig.mk 80 true 9 true) (fun _ _ => "OUT") (.exited 0)).1 = Except.ok out →
      out = freshTmpPath [("img.png", FileData.mk "DATA" 420)] (extname "img.png")) :=
  compress_preserves_input_spec [("img.png", FileData.mk "DATA" 420)] "img.png"
    (VIPSConfig.mk 80 true 9 true) (fun _ _ => "OUT") (.exited 0) (by decide)

/-! ## C1: remote writes on an empty accepted-results list -/

/-- C1, counterexample.  With a non-empty image enumeration whose every
compression result was discarded (empty accepted list), the claim says
the run performs no remote write at all; but the reconciliation tail
still issues write calls (tree creation, commit creation, ref
creation or update) in a concrete environment. -/
theorem reconcile_empty_results_writes_cex :
    ((reconcile sampleEnv "BitPatty" "vips-github-action" "vips" "ctxsha"
      "compress images" []).any RemoteCall.isWrite) = true := by
  decide

/-- C1 (amended).  With an empty accepted-results list no blob-creation
call is made, but the run still performs remote writes: it creates a
tree (with no entries) and a commit, issues the branch-ref lookup
followed by the force-update or creation of the branch ref, and still
proceeds to the pull-request upsert (issuing its `listPulls` read). -/
theorem reconcile_empty_results_behavior (env : RemoteEnv)
    (owner repo branch ctxSha msg : String) :
    (((reconcile env owner repo branch ctxSha msg []).all
      fun c => !c.isBlobCreate) = true) ∧
    RemoteCall.createTree ctxSha [] ∈ reconcile env owner repo branch ctxSha msg [] ∧
    RemoteCall.createCommitReq env.treeSha [ctxSha] msg ∈
      reconcile env owner repo branch ctxSha msg [] ∧
    RemoteCall.listPulls env.defaultBranch branch ∈
      reconcile env owner repo branch ctxSha msg [] ∧
    (RemoteCall.updateRef ("heads/" ++ branch) env.commitSha true ∈
        reconcile env owner repo branch ctxSha msg [] ∨
      RemoteCall.createRef ("refs/" ++ ("heads/" ++ branch)) env.commitSha true ∈
        reconcile env owner repo branch ctxSha msg []) := by
  have hc : createCommit env branch ctxSha msg (List.map toImageFile []) =
      [RemoteCall.createTree ctxSha [],
        RemoteCall.createCommitReq env.treeSha [ctxSha] msg,
        RemoteCall.listMatchingRefs ("heads/" ++ branch),
        if env.matchingRefs.contains ("refs/" ++ ("heads/" ++ branch))
        then RemoteCall.updateRef ("heads/" ++ branch) env.commitSha true
        else RemoteCall.createRef ("refs/" ++ ("heads/" ++ branch)) env.commitSha true] := by
    simp [createCommit]
  have hu : ∃ tail, (upsertPullRequest env owner repo branch []).1 =
      RemoteCall.getRepo :: RemoteCall.listPulls env.defaultBranch branch :: tail ∧
      ((tail.all fun c => !c.isBlobCreate) = true) := by
    unfold upsertPullRequest
    cases ho : env.openPRs with
    | nil => exact ⟨[], by simp, by simp⟩
    | cons p ps =>
      cases hf : (p :: ps).find? (fun d => d.headOwnerLogin == owner &&
          d.headRepoName == repo && d.headRef == branch) with
      | some pr =>
        exact ⟨[RemoteCall.updatePull pr.number (buildPRText []) "Compress Images"],
          by simp [hf], by simp [RemoteCall.isBlobCreate]⟩
      | none =>
        exact ⟨[RemoteCall.createPull p.number env.defaultBranch branch
            (buildPRText []) "Compress Images"],
          by simp [hf], by simp [RemoteCall.isBlobCreate]⟩
  obtain ⟨tail, htr, htail⟩ := hu
  unfold reconcile
  rw [hc, htr]
  refine ⟨?_, ?_, ?_, ?_, ?_⟩
  · simp only [List.all_append, List.all_cons, htail, Bool.and_true]
    by_cases hex : ("refs/" ++ ("heads/" ++ branch)) ∈ env.matchingRefs <;>
      simp [hex, RemoteCall.isBlobCreate, htail]
  · simp
  · simp
  · simp
  · by_cases hex : ("refs/" ++ ("heads/" ++ branch)) ∈ env.matchingRefs
    · left
      simp [hex]
    · right
      simp [hex]

/-! ## C3: pull-request upsert -/

/-- C3 demonstrates the divergence: when no open pull request matches
because the `pulls.list` response is empty, the creation branch
dereferences `existingPRs.data[0].number` and throws before any
`pulls.create` call, so no pull request is created; the outcome is the
thrown `TypeError`, and the trace contains no pull-request-creation
call. -/
theorem upsertPullRequest_no_open_prs_throws :
    ((upsertPullRequest sampleEnv "BitPatty" "vips-github-action" "vips" []).2 =
      Except.error "TypeError: cannot read number of undefined") ∧
    (((upsertPullRequest sampleEnv "BitPatty" "vips-github-action" "vips" []).1.all
      fun c => !c.isCreatePull) = true) := by
  constructor
  · rfl
  · decide

/-! ## C6: branch-ref creation or force-update by `createCommit` -/

/-- C6.  `createCommit` issues a commit-creation call whose single
parent is the triggering commit, looks up the refs matching
`heads/<branch>`, and then: when `refs/heads/<branch>` is among the
returned refs it force-updates that ref (issuing no ref-creation call),
and when it is not it creates the ref pointing at the new commit sha
(issuing no ref-update call). -/
theorem createCommit_ref_upsert_spec (env : RemoteEnv) (branch ctxSha msg : String)
    (images : List ImageFile) :
    RemoteCall.createCommitReq env.treeSha [ctxSha] msg ∈
      createCommit env branch ctxSha msg images ∧
    RemoteCall.listMatchingRefs ("heads/" ++ branch) ∈
      createCommit env branch ctxSha msg images ∧
    (env.matchingRefs.contains ("refs/" ++ ("heads/" ++ branch)) = true →
      RemoteCall.updateRef ("heads/" ++ branch) env.commitSha true ∈
        createCommit env branch ctxSha msg images ∧
      ((createCommit env branch ctxSha msg images).all fun c => !c.isCreateRef) = true) ∧
    (env.matchingRefs.contains ("refs/" ++ ("heads/" ++ branch)) = false →
      RemoteCall.createRef ("refs/" ++ ("heads/" ++ branch)) env.commitSha true ∈
        createCommit env branch ctxSha msg images ∧
      ((createCommit env branch ctxSha msg images).all fun c => !c.isUpdateRef) = true) := by
  refine ⟨?_, ?_, ?_, ?_⟩
  · simp [createCommit]
  · simp [createCommit]
  · intro hex
    have hmem : ("refs/" ++ ("heads/" ++ branch)) ∈ env.matchingRefs := by
      simpa using hex
    constructor
    · simp [createCommit, hmem]
    · simp [createCommit, hmem, List.all_append, List.all_map, Function.comp,
        RemoteCall.isCreateRef]
  · intro hex
    have hmem : ("refs/" ++ ("heads/" ++ branch)) ∉ env.matchingRefs := by
      simpa using hex
    constructor
    · simp [createCommit, hmem]
    · simp [createCommit, hmem, List.all_append, List.all_map, Function.comp,
        RemoteCall.isUpdateRef]

/-- Remote environment in which the branch ref `refs/heads/vips`
already exists. -/
def refsEnv : RemoteEnv :=
  { sampleEnv with matchingRefs := ["refs/heads/vips"] }

/-- C6, witness: with the ref present the trace force-updates and never
creates a ref; with the ref absent it creates the ref and never
updates one. -/
theorem createCommit_ref_upsert_spec_witness :
    (RemoteCall.updateRef ("heads/" ++ "vips") refsEnv.commitSha true ∈
        createCommit refsEnv "vips" "ctxsha" "m" [] ∧
      ((createCommit refsEnv "vips" "ctxsha" "m" []).all fun c => !c.isCreateRef) = true) ∧
    (RemoteCall.createRef ("refs/" ++ ("heads/" ++ "vips")) sampleEnv.commitSha true ∈
        createCommit sampleEnv "vips" "ctxsha" "m" [] ∧
      ((createCommit sampleEnv "vips" "ctxsha" "m" []).all fun c => !c.isUpdateRef) = true) :=
  ⟨(createCommit_ref_upsert_spec refsEnv "vips" "ctxsha" "m" []).2.2.1 (by decide),
    (createCommit_ref_upsert_spec sampleEnv "vips" "ctxsha" "m" []).2.2.2 (by decide)⟩

end VipsAction
